import Mathlib

/-!
Verification of the fifteen-puzzle A* solver (main.py).

Modelling conventions:
* The 4x4 numpy tile array is embedded as a flat row-major `List Int` of
  length 16; the cell at row `r`, column `c` is the list entry at index
  `r * 4 + c`.  Tile values are embedded as `Int` (the numpy array holds
  float64 values, which represent the small integers involved exactly;
  Python floor division `//` is `Int.fdiv`, Python `%` is `Int.emod`, and
  `math.ceil` of an integer-valued quotient is the identity).
* A `NumberPuzzle` object is an inductive value carrying the same fields as
  the Python class; the `parent` back reference makes the type recursive.
* `queue.PriorityQueue` delegates to CPython `heapq`; `heappushq` and
  `heappopq` below implement the exact CPython `heappush`/`heappop`
  algorithms (element comparison reads only the `key` field, mirroring
  `NumberPuzzle.__lt__`).  The in-place sift loops are written as
  recursions that perform the same swaps in the same comparison order.
* the Python `set` of `hash(bytes(self.tiles))` fingerprints is embedded as
  a list of tile arrangements: the hash is modelled injectively by the
  arrangement itself.
* The search loop runs on explicit fuel; `none` means the fuel ran out
  (the termination theorem shows enough fuel always exists).
-/

namespace FifteenPuzzle

def PUZZLE_WIDTH : Nat := 4

def BLANK : Int := 0

/-- State of the puzzle plus the A* bookkeeping fields of class NumberPuzzle. -/
inductive NumberPuzzle : Type where
  | mk (tiles : List Int) (blank_r : Nat) (blank_c : Nat)
       (parent : Option NumberPuzzle) (dist_from_start : Int) (key : Int)

namespace NumberPuzzle

def tiles : NumberPuzzle → List Int
  | mk t _ _ _ _ _ => t

def blank_r : NumberPuzzle → Nat
  | mk _ r _ _ _ _ => r

def blank_c : NumberPuzzle → Nat
  | mk _ _ c _ _ _ => c

def parent : NumberPuzzle → Option NumberPuzzle
  | mk _ _ _ p _ _ => p

def dist_from_start : NumberPuzzle → Int
  | mk _ _ _ _ d _ => d

def key : NumberPuzzle → Int
  | mk _ _ _ _ _ k => k

/-- Assignment to the key field (node.key = ...). -/
def set_key : NumberPuzzle → Int → NumberPuzzle
  | mk t r c p d _, k => mk t r c p d k

/-- Assignment to the parent field (node.parent = ...). -/
def set_parent : NumberPuzzle → Option NumberPuzzle → NumberPuzzle
  | mk t r c _ d k, p => mk t r c p d k

/-- Flat index of the blank cell. -/
def blankIdx (p : NumberPuzzle) : Nat := p.blank_r * PUZZLE_WIDTH + p.blank_c

end NumberPuzzle

open NumberPuzzle

/-- Loop body of NumberPuzzle.solved: walks the flattened cells carrying the
running expected value should_be, which steps by (should_be + 1) % 16. -/
def solvedAux : List Int → Int → Bool
  | [], _ => true
  | v :: rest, should_be =>
      if v ≠ should_be then false
      else solvedAux rest ((should_be + 1) % (PUZZLE_WIDTH ^ 2 : Nat))

/-- NumberPuzzle.solved: all tiles in order and blank bottom right. -/
def solved (p : NumberPuzzle) : Bool := solvedAux p.tiles 1

/-- Loop body of tile_mismatch_heuristic. -/
def mismatchAux : List Int → Int → Int → Int
  | [], _, acc => acc
  | v :: rest, should_be, acc =>
      mismatchAux rest ((should_be + 1) % (PUZZLE_WIDTH ^ 2 : Nat))
        (if v ≠ should_be ∧ v ≠ 0 then acc + 1 else acc)

/-- NumberPuzzle.tile_mismatch_heuristic: count of tiles out of place,
ignoring the blank. -/
def NumberPuzzle.tile_mismatch_heuristic (p : NumberPuzzle) : Int := mismatchAux p.tiles 1 0

/-- Loop body of manhattan_heuristic.  idx is the flat cell index, so the
row ii is idx / 4 and the column jj is idx % 4.  The offsets are exactly the
source expressions: y_offset = abs(ceil(tiles[ii][jj] // 4) - ii) and
x_offset = abs(tiles[ii][jj] % 4 - jj). -/
def manhattanAux : List Int → Int → Nat → Int → Int
  | [], _, _, acc => acc
  | v :: rest, should_be, idx, acc =>
      let ii : Int := (idx / PUZZLE_WIDTH : Nat)
      let jj : Int := (idx % PUZZLE_WIDTH : Nat)
      let acc := if v ≠ should_be ∧ v ≠ 0 then
          let y_offset := |Int.fdiv v 4 - ii|
          let x_offset := |v % 4 - jj|
          acc + (x_offset + y_offset)
        else acc
      manhattanAux rest ((should_be + 1) % (PUZZLE_WIDTH ^ 2 : Nat)) (idx + 1) acc

/-- NumberPuzzle.manhattan_heuristic as written in the source. -/
def NumberPuzzle.manhattan_heuristic (p : NumberPuzzle) : Int := manhattanAux p.tiles 1 0 0

/-- NumberPuzzle.heuristic: dispatch between the two heuristics. -/
def NumberPuzzle.heuristic (p : NumberPuzzle) (better_h : Bool) : Int :=
  if better_h then p.manhattan_heuristic else p.tile_mismatch_heuristic

/-- NumberPuzzle.total_h: admissible heuristic plus cost so far. -/
def NumberPuzzle.total_h (p : NumberPuzzle) (better_h : Bool) : Int :=
  p.dist_from_start + p.heuristic better_h

/-- NumberPuzzle.copy: child with a copy of the tile array, the same scalar
fields, parent set to self, and key left at the freshly initialised 0. -/
def NumberPuzzle.copy (p : NumberPuzzle) : NumberPuzzle :=
  NumberPuzzle.mk p.tiles p.blank_r p.blank_c (some p) p.dist_from_start 0

/-- NumberPuzzle.move: move the tile at (tile_row, tile_column) into the
blank; the blank cell receives the tile value, the tile cell becomes BLANK,
the blank position moves, and dist_from_start increments. -/
def NumberPuzzle.move (p : NumberPuzzle) (tile_row tile_column : Nat) : NumberPuzzle :=
  let tIdx := tile_row * PUZZLE_WIDTH + tile_column
  NumberPuzzle.mk
    ((p.tiles.set p.blankIdx (p.tiles.getD tIdx 0)).set tIdx BLANK)
    tile_row tile_column p.parent (p.dist_from_start + 1) p.key

/-- NumberPuzzle.legal_moves: children in the source's fixed test order
row-1, column-1, row+1, column+1. -/
def legal_moves (p : NumberPuzzle) : List NumberPuzzle :=
  (if p.blank_r > 0 then [p.copy.move (p.blank_r - 1) p.blank_c] else []) ++
  (if p.blank_c > 0 then [p.copy.move p.blank_r (p.blank_c - 1)] else []) ++
  (if p.blank_r < PUZZLE_WIDTH - 1 then [p.copy.move (p.blank_r + 1) p.blank_c] else []) ++
  (if p.blank_c < PUZZLE_WIDTH - 1 then [p.copy.move p.blank_r (p.blank_c + 1)] else [])

/-- NumberPuzzle.path_to_here, also the reconstruction loop inlined in
solve: walk parent links, collecting states from the root to here. -/
def path_to_here : NumberPuzzle → List NumberPuzzle
  | .mk t r c none d k => [.mk t r c none d k]
  | .mk t r c (some q) d k => path_to_here q ++ [.mk t r c (some q) d k]

/-- Placeholder element for out-of-range heap reads (never reached when the
index arguments are in range, as they are in every real call). -/
def dummy : NumberPuzzle := .mk [] 0 0 none 0 0

/-- NumberPuzzle.__lt__: priority-queue comparison reads only the key. -/
def pLt (a b : NumberPuzzle) : Bool := a.key < b.key

/-- CPython heapq._siftdown: move the element at pos toward the root while
it compares less than its parent.  Each loop iteration is one swap; the
fuel pos bounds the iteration count. -/
def siftdownAux : Nat → List NumberPuzzle → Nat → Nat → List NumberPuzzle
  | 0, heap, _, _ => heap
  | fuel + 1, heap, startpos, pos =>
      if startpos < pos then
        let parentpos := (pos - 1) / 2
        let newitem := heap.getD pos dummy
        let parentv := heap.getD parentpos dummy
        if pLt newitem parentv then
          siftdownAux fuel ((heap.set pos parentv).set parentpos newitem) startpos parentpos
        else heap
      else heap

def siftdown (heap : List NumberPuzzle) (startpos pos : Nat) : List NumberPuzzle :=
  siftdownAux pos heap startpos pos

/-- CPython heapq._siftup: bubble the smaller child up into pos down to a
leaf (on a tie between the two children the right child is taken, matching
the "not heap[childpos] < heap[rightpos]" test), then restore with
_siftdown.  The fuel heap.length bounds the descent. -/
def siftupAux : Nat → List NumberPuzzle → Nat → Nat → List NumberPuzzle
  | 0, heap, startpos, pos => siftdown heap startpos pos
  | fuel + 1, heap, startpos, pos =>
      let endpos := heap.length
      let childpos := 2 * pos + 1
      if childpos < endpos then
        let rightpos := childpos + 1
        let childpos :=
          if rightpos < endpos ∧ ¬ pLt (heap.getD childpos dummy) (heap.getD rightpos dummy)
          then rightpos else childpos
        siftupAux fuel
          ((heap.set pos (heap.getD childpos dummy)).set childpos (heap.getD pos dummy))
          startpos childpos
      else siftdown heap startpos pos

def siftup (heap : List NumberPuzzle) (pos : Nat) : List NumberPuzzle :=
  siftupAux heap.length heap pos pos

/-- CPython heapq.heappush (PriorityQueue.put). -/
def heappushq (heap : List NumberPuzzle) (item : NumberPuzzle) : List NumberPuzzle :=
  siftdown (heap ++ [item]) 0 heap.length

/-- CPython heapq.heappop (PriorityQueue._get): pop the last element; if the
heap is still non-empty, overwrite the root with it and sift up; the old
root is returned. -/
def heappopq : List NumberPuzzle → Option (NumberPuzzle × List NumberPuzzle)
  | [] => none
  | [x] => some (x, [])
  | x :: y :: rest =>
      let all := x :: y :: rest
      let lastelt := all.getLastD dummy
      some (x, siftup (all.dropLast.set 0 lastelt) 0)

/-- Key assignment and parent assignment applied to a freshly generated
child inside the solve loop.  In the source the parent assignment happens
after the put, but it mutates the very object sitting in the queue and the
heap ordering reads only key, so the queue ends up holding exactly this
value. -/
def prepChild (better_h : Bool) (state node : NumberPuzzle) : NumberPuzzle :=
  (node.set_key (node.heuristic better_h + node.dist_from_start)).set_parent (some state)

/-- The while loop of NumberPuzzle.solve, on explicit fuel (one unit per
iteration; none = fuel exhausted).  closed_list is the set of fingerprints
of expanded states. -/
def solveLoop (better_h : Bool) :
    Nat → List NumberPuzzle → List (List Int) → Nat →
    Option (Option (List NumberPuzzle) × Nat)
  | 0, _, _, _ => none
  | fuel + 1, open_list, closed_list, explored =>
      if open_list.length ≠ 0 then
        match heappopq open_list with
        | none => none
        | some (state, rest) =>
            let explored := explored + 1
            if solved state then some (some (path_to_here state), explored)
            else if state.tiles ∈ closed_list then
              solveLoop better_h fuel rest closed_list explored
            else
              solveLoop better_h fuel
                ((legal_moves state).foldl (fun q node => heappushq q (prepChild better_h state node)) rest)
                (state.tiles :: closed_list) explored
      else some (none, explored)

/-- NumberPuzzle.solve: push self (key still at its initial value) and run
the loop with empty closed list and explored = 0. -/
def solve (p : NumberPuzzle) (better_h : Bool) (fuel : Nat) :
    Option (Option (List NumberPuzzle) × Nat) :=
  solveLoop better_h fuel (heappushq [] p) [] 0

/-! ### The parser read_puzzle_string

The splitting of the raw text into lines and whitespace tokens is the thin
I/O glue of spec section 6; the model receives the token matrix (one list
of tokens per line) and performs the per-token work of the source loop.
Python int(token) on a whitespace-free token is modelled by pyInt:
an optional sign followed by at least one digit (underscore separators of
Python literals are not modelled; no claim exercises them).  The uncaught
IndexError cases (a line with fewer than four tokens, a fifth line hitting
the numpy bounds) are returned as errors. -/

def digitsValAux : List Char → Nat → Option Nat
  | [], acc => some acc
  | ch :: rest, acc =>
      if ch.isDigit then digitsValAux rest (acc * 10 + (ch.toNat - 48)) else none

def digitsVal : List Char → Option Nat
  | [] => none
  | l => digitsValAux l 0

/-- Model of Python int() on a split() token. -/
def pyInt (s : String) : Option Int :=
  match s.data with
  | '-' :: rest => (digitsVal rest).map (fun n => -(n : Int))
  | '+' :: rest => (digitsVal rest).map (fun n => (n : Int))
  | l => (digitsVal l).map (fun n => (n : Int))

/-- Inner loop of read_puzzle_string: for i in range(PUZZLE_WIDTH), process
tokens[i] of one line; n counts the cells still to process, so i + n = 4
throughout.  A '-' token writes BLANK and records the blank position; other
tokens must parse as integers. -/
def parseCells (row : Nat) (tokens : List String) :
    Nat → Nat → List Int → Nat × Nat → Except String (List Int × (Nat × Nat))
  | 0, _, tilesArr, blank => .ok (tilesArr, blank)
  | n + 1, i, tilesArr, blank =>
      if i < tokens.length then
        let tok := tokens.getD i ""
        if tok = "-" then
          parseCells row tokens n (i + 1) (tilesArr.set (row * PUZZLE_WIDTH + i) BLANK) (row, i)
        else
          match pyInt tok with
          | some v => parseCells row tokens n (i + 1) (tilesArr.set (row * PUZZLE_WIDTH + i) v) blank
          | none => .error "Found unexpected non-integer for tile value"
      else .error "IndexError: list index out of range"

/-- Outer loop of read_puzzle_string over the lines, with the running row
index; a row index beyond the 4x4 array is the uncaught numpy IndexError. -/
def parseLines : List (List String) → Nat → List Int → Nat × Nat →
    Except String (List Int × (Nat × Nat))
  | [], _, tilesArr, blank => .ok (tilesArr, blank)
  | line :: rest, row, tilesArr, blank =>
      if row < PUZZLE_WIDTH then
        match parseCells row line PUZZLE_WIDTH 0 tilesArr blank with
        | .ok (t, b) => parseLines rest (row + 1) t b
        | .error e => .error e
      else .error "IndexError: index out of bounds"

/-- read_puzzle_string: start from the zero-initialised NumberPuzzle()
(tiles all 0, blank_r = blank_c = 0, no parent, dist 0, key 0) and fill the
tile array from the token matrix. -/
def read_puzzle_string (lines : List (List String)) : Except String NumberPuzzle :=
  match parseLines lines 0 (List.replicate (PUZZLE_WIDTH * PUZZLE_WIDTH) 0) (0, 0) with
  | .ok (t, (r, c)) => .ok (.mk t r c none 0 0)
  | .error e => .error e

/-! ### Reference-semantics model of the object graph

The frame claim about legal_moves concerns Python aliasing: numpy arrays
are shared by reference and self must not be written through a child.  The
model below makes the stores explicit: arrs holds the numpy arrays, objs
the NumberPuzzle objects (whose tiles field is a reference into arrs), and
copy / move / legal_moves act on the stores exactly as the source methods
do (np.copy allocates a fresh array; move writes through the object's own
array reference; attribute writes update the object's record in place). -/

structure ObjRec where
  tiles_ref : Nat
  blank_r : Nat
  blank_c : Nat
  parent : Option Nat
  dist_from_start : Int
  key : Int

def objDflt : ObjRec := ⟨0, 0, 0, none, 0, 0⟩

structure Mem where
  arrs : List (List Int)
  objs : List ObjRec

/-- NumberPuzzle.copy under reference semantics: allocate a fresh array with
the same contents (np.copy) and a fresh object whose scalar fields mirror
self, whose parent is self, and whose key is the initial 0. -/
def copyM (m : Mem) (sid : Nat) : Mem × Nat :=
  let so := m.objs.getD sid objDflt
  let aid := m.arrs.length
  let cid := m.objs.length
  let child : ObjRec := ⟨aid, so.blank_r, so.blank_c, some sid, so.dist_from_start, 0⟩
  (⟨m.arrs ++ [m.arrs.getD so.tiles_ref []], m.objs ++ [child]⟩, cid)

/-- NumberPuzzle.move under reference semantics: write the two cells through
the object's array reference and update its blank position and distance. -/
def moveM (m : Mem) (oid : Nat) (tr tc : Nat) : Mem :=
  let o := m.objs.getD oid objDflt
  let arr := m.arrs.getD o.tiles_ref []
  let arrMoved :=
    (arr.set (o.blank_r * PUZZLE_WIDTH + o.blank_c) (arr.getD (tr * PUZZLE_WIDTH + tc) 0)).set
      (tr * PUZZLE_WIDTH + tc) BLANK
  let oMoved : ObjRec := ⟨o.tiles_ref, tr, tc, o.parent, o.dist_from_start + 1, o.key⟩
  ⟨m.arrs.set o.tiles_ref arrMoved, m.objs.set oid oMoved⟩

/-- NumberPuzzle.legal_moves under reference semantics: the four guarded
copy-and-move blocks in source order; self's fields are re-read from the
store before each guard, exactly as the source expressions do. -/
def legal_movesM (m : Mem) (sid : Nat) : Mem × List Nat :=
  let s0 := (m.objs.getD sid objDflt)
  let st1 := if s0.blank_r > 0 then
      let r1 := copyM m sid
      (moveM r1.1 r1.2 (s0.blank_r - 1) s0.blank_c, [r1.2])
    else (m, [])
  let s1 := (st1.1.objs.getD sid objDflt)
  let st2 := if s1.blank_c > 0 then
      let r2 := copyM st1.1 sid
      (moveM r2.1 r2.2 s1.blank_r (s1.blank_c - 1), st1.2 ++ [r2.2])
    else st1
  let s2 := (st2.1.objs.getD sid objDflt)
  let st3 := if s2.blank_r < PUZZLE_WIDTH - 1 then
      let r3 := copyM st2.1 sid
      (moveM r3.1 r3.2 (s2.blank_r + 1) s2.blank_c, st2.2 ++ [r3.2])
    else st2
  let s3 := (st3.1.objs.getD sid objDflt)
  if s3.blank_c < PUZZLE_WIDTH - 1 then
    let r4 := copyM st3.1 sid
    (moveM r4.1 r4.2 s3.blank_r (s3.blank_c + 1), st3.2 ++ [r4.2])
  else st3

/-- Frame predicate for the store model: the object record at sid and the
array at aref are untouched, and the stores have only grown. -/
def FrameAt (orig : Mem) (sid aref : Nat) (m : Mem) : Prop :=
  m.objs.getD sid objDflt = orig.objs.getD sid objDflt ∧
  m.arrs.getD aref [] = orig.arrs.getD aref [] ∧
  orig.objs.length ≤ m.objs.length ∧ orig.arrs.length ≤ m.arrs.length

/-! ### Definitions taken from the spec text, for comparison with the code -/

/-- Modelled from the spec: the Manhattan distance sum of section 4.2, with
the goal position of value v at row (v-1) div 4, column (v-1) mod 4,
summing |row - goal_row| + |col - goal_col| over non-blank tiles. -/
def manhattanSpecAux : List Int → Nat → Int
  | [], _ => 0
  | v :: rest, idx =>
      let ii : Int := (idx / PUZZLE_WIDTH : Nat)
      let jj : Int := (idx % PUZZLE_WIDTH : Nat)
      (if v ≠ 0 then |ii - Int.fdiv (v - 1) 4| + |jj - Int.emod (v - 1) 4| else 0) +
        manhattanSpecAux rest (idx + 1)

def manhattan_distance_spec (p : NumberPuzzle) : Int := manhattanSpecAux p.tiles 0

/-- Modelled from the spec: the generation-order contract of section 4.1,
the neighbour candidates in the fixed order row-1, column-1, row+1,
column+1, keeping those in bounds, each turned into the copied-and-moved
child. -/
def legal_moves_order_spec (p : NumberPuzzle) : List NumberPuzzle :=
  (([((p.blank_r : Int) - 1, (p.blank_c : Int)),
     ((p.blank_r : Int), (p.blank_c : Int) - 1),
     ((p.blank_r : Int) + 1, (p.blank_c : Int)),
     ((p.blank_r : Int), (p.blank_c : Int) + 1)].filter
      (fun rc => 0 ≤ rc.1 ∧ rc.1 < (PUZZLE_WIDTH : Int) ∧ 0 ≤ rc.2 ∧ rc.2 < (PUZZLE_WIDTH : Int))).map
    (fun rc => p.copy.move rc.1.toNat rc.2.toNat))

/-- Well-formedness of a 4x4 puzzle state: 16 cells, blank coordinates in
range, and the cached blank position actually holding 0 (the data-model
invariant of spec section 3). -/
@[reducible] def WF (p : NumberPuzzle) : Prop :=
  p.tiles.length = 16 ∧ p.blank_r < 4 ∧ p.blank_c < 4 ∧ p.tiles.getD p.blankIdx 0 = 0

/-- One legal step: the two states differ by exactly one swap between the
blank cell and a grid-adjacent cell, which becomes the new blank. -/
@[reducible] def AdjSwap (a b : NumberPuzzle) : Prop :=
  ∃ tr tc : Nat, tr < 4 ∧ tc < 4 ∧
    ((tr = a.blank_r ∧ (tc = a.blank_c + 1 ∨ tc + 1 = a.blank_c)) ∨
     (tc = a.blank_c ∧ (tr = a.blank_r + 1 ∨ tr + 1 = a.blank_r))) ∧
    b.blank_r = tr ∧ b.blank_c = tc ∧
    b.tiles = (a.tiles.set a.blankIdx (a.tiles.getD (tr * PUZZLE_WIDTH + tc) 0)).set
      (tr * PUZZLE_WIDTH + tc) (a.tiles.getD a.blankIdx 0)

/-- Relation between consecutive states of a returned path: one adjacent
swap with the blank, and cost exactly one higher. -/
def StepRel (a b : NumberPuzzle) : Prop :=
  AdjSwap a b ∧ b.dist_from_start = a.dist_from_start + 1

/-- Provenance of the states the search loop handles: the start state, or a
key-and-parent-updated legal_moves child of another such state.  Every
element ever held in the open list is of this shape. -/
inductive SearchNode (better_h : Bool) (start : NumberPuzzle) : NumberPuzzle → Prop where
  | base : SearchNode better_h start start
  | step {p n : NumberPuzzle} : SearchNode better_h start p → n ∈ legal_moves p →
      SearchNode better_h start (prepChild better_h p n)

/-! ### Concrete states used by the claims -/

/-- Almost solved arrangement with the blank at (3,2) and tile 15 at (3,3);
one move from the goal. -/
def stateP15 : NumberPuzzle :=
  .mk [1, 2, 3, 4, 5, 6, 7, 8, 9, 10, 11, 12, 13, 14, 0, 15] 3 2 none 0 0

/-- The solved arrangement. -/
def solvedState : NumberPuzzle :=
  .mk [1, 2, 3, 4, 5, 6, 7, 8, 9, 10, 11, 12, 13, 14, 15, 0] 3 3 none 0 0

/-- A solvable arrangement at true distance 9 from the goal (blank at
(3,2)), on which the Manhattan-selected search returns an 11-move path. -/
def c1Start : NumberPuzzle :=
  .mk [1, 2, 3, 4, 5, 6, 7, 8, 13, 9, 15, 11, 10, 14, 0, 12] 3 2 none 0 0

/-- The witness optimal move sequence for c1Start: the grid positions moved
into the blank, in order. -/
def c1Moves : List (Nat × Nat) :=
  [(3, 1), (3, 0), (2, 0), (2, 1), (3, 1), (3, 2), (2, 2), (2, 3), (3, 3)]

/-- Take the legal move whose resulting blank position is rc, if any. -/
def applyMove (p : NumberPuzzle) (rc : Nat × Nat) : Option NumberPuzzle :=
  (legal_moves p).find? (fun c => c.blank_r == rc.1 && c.blank_c == rc.2)

/-- Walk a move sequence through the move graph generated by legal_moves. -/
def applyMoves (p : NumberPuzzle) (l : List (Nat × Nat)) : Option NumberPuzzle :=
  l.foldlM applyMove p

/-- Reduce a solve result to (path length, explored count). -/
def pathLenSummary (r : Option (Option (List NumberPuzzle) × Nat)) :
    Option (Option Nat × Nat) :=
  r.map (fun x => (x.1.map List.length, x.2))

/-- The returned path of a solve result (empty on failure or fuel-out). -/
def getPath (r : Option (Option (List NumberPuzzle) × Nat)) : List NumberPuzzle :=
  (r.getD (none, 0)).1.getD []

/-- The explored count of a solve result (0 on fuel-out). -/
def getExplored (r : Option (Option (List NumberPuzzle) × Nat)) : Nat :=
  (r.getD (none, 0)).2

/-- Blank coordinates of a parse result, none on a parse error. -/
def parsedBlank : Except String NumberPuzzle → Option (Nat × Nat)
  | .ok p => some (p.blank_r, p.blank_c)
  | .error _ => none

/-- Boolean form of the cached-blank invariant tiles[blank] == 0. -/
def invHolds (p : NumberPuzzle) : Bool := p.tiles.getD p.blankIdx 0 == 0

/-- A well-formed 4-line all-integer token matrix with no blank marker. -/
def noDashLines : List (List String) :=
  [["1", "2", "3", "4"], ["5", "6", "7", "8"],
   ["9", "10", "11", "12"], ["13", "14", "15", "16"]]

/-- Parser loop invariant: the cell recorded as blank holds 0 and sits
strictly before the next cell the parser will write (index bound). -/
@[reducible] def Qinv (tilesArr : List Int) (blank : Nat × Nat) (bound : Nat) : Prop :=
  tilesArr.getD (blank.1 * PUZZLE_WIDTH + blank.2) 0 = 0 ∧
    blank.1 * PUZZLE_WIDTH + blank.2 < bound

/-! ### Claims C2, C3 (the Manhattan heuristic bug) -/

/-- C2: the claim states that manhattan_heuristic returns the sum over
non-blank tiles of |row - goal_row| + |col - goal_col| with
goal_row = (value-1) div 4 and goal_col = (value-1) mod 4.  The code
instead uses value div 4 and value mod 4 (lines 275-276 of main.py);
at stateP15 the claimed formula gives 1 (tile 15 one cell right of its
goal) while the code returns 0, contradicting the function's own
docstring that it returns the total Manhattan distance. -/
theorem C2_manhattan_formula_bug :
    manhattan_heuristic stateP15 = 0 ∧ manhattan_distance_spec stateP15 = 1 := by
  constructor <;> decide

/-- C3: the claim states manhattan_heuristic ≥ tile_mismatch_heuristic on
every state.  At stateP15 the code's Manhattan value is 0 while the
mismatch count is 1, so the code violates the claimed dominance (a direct
consequence of the C2 heuristic bug). -/
theorem C3_dominance_bug :
    manhattan_heuristic stateP15 = 0 ∧ tile_mismatch_heuristic stateP15 = 1 ∧
      manhattan_heuristic stateP15 < tile_mismatch_heuristic stateP15 := by
  refine ⟨by decide, by decide, by decide⟩

/-! ### Claim C4 (generation order) -/

/-- C4: legal_moves produces the children in the fixed order up, left,
down, right, testing row-1, then column-1, then row+1, then column+1 and
appending a child for each in-bounds neighbour: it coincides with the
order specification read off the spec text. -/
theorem C4_generation_order (p : NumberPuzzle)
    (h1 : p.blank_r < 4) (h2 : p.blank_c < 4) :
    legal_moves p = legal_moves_order_spec p := by
  obtain ⟨t, r, c, par, d, k⟩ := p
  simp only [NumberPuzzle.blank_r] at h1
  simp only [NumberPuzzle.blank_c] at h2
  interval_cases r <;> interval_cases c <;> rfl

/-- Witness for C4 at the concrete state stateP15. -/
theorem C4_generation_order_witness :
    legal_moves stateP15 = legal_moves_order_spec stateP15 :=
  C4_generation_order stateP15 (by decide) (by decide)

/-! ### Claim C7 (already-solved start) -/

/-- C7: on a start state that satisfies the goal test (and has no
predecessor, as every parsed start state does), solve returns, for either
heuristic, the single-element path and an explored count of exactly 1. -/
theorem C7_solved_start (better_h : Bool) (fuel : Nat) (p : NumberPuzzle)
    (hs : solved p = true) (hp : p.parent = none) :
    solve p better_h (fuel + 1) = some (some [p], 1) := by
  obtain ⟨t, r, c, par, d, k⟩ := p
  simp only [NumberPuzzle.parent] at hp
  subst hp
  simp only [solve, heappushq, siftdown, List.length_nil, siftdownAux, List.nil_append]
  simp only [solveLoop, List.length_cons, heappopq, hs]
  simp [path_to_here]

/-- Witness for C7 at the solved state with the Manhattan heuristic. -/
theorem C7_solved_start_witness :
    solve solvedState true 1 = some (some [solvedState], 1) :=
  C7_solved_start true 0 solvedState (by decide) rfl

/-! ### Claim C1 (optimality) -/

/-- C1: the claim states that for every solvable start and both heuristics
the returned path length minus one is the true shortest-path distance.
With better_h = true the search on c1Start returns a 12-state path
(11 moves, 16 nodes explored), yet the 9 moves of c1Moves already walk
c1Start to a goal state through the legal_moves graph, so the shortest
distance is at most 9 and the returned path is not optimal.  The cause is
the inadmissible Manhattan implementation recorded under C2. -/
theorem C1_suboptimal_run :
    pathLenSummary (solve c1Start true 64) = some (some 12, 16) ∧
    (applyMoves c1Start c1Moves).map solved = some true ∧
    c1Moves.length = 9 := by
  refine ⟨by decide, by decide, by decide⟩

/-! ### Claim C10 (parser accepts blank-free integer input) -/

lemma parseCells_no_dash (row : Nat) (tokens : List String) :
    ∀ (n i : Nat) (tilesArr : List Int) (blank : Nat × Nat),
      (∀ j, j < n → i + j < tokens.length ∧ tokens.getD (i + j) "" ≠ "-" ∧
        (pyInt (tokens.getD (i + j) "")).isSome = true) →
      ∃ t, parseCells row tokens n i tilesArr blank = .ok (t, blank) := by
  intro n
  induction n with
  | zero => exact fun i tA b _ => ⟨tA, rfl⟩
  | succ n ih =>
      intro i tA b h
      have h0 := h 0 (Nat.succ_pos n)
      rw [Nat.add_zero] at h0
      obtain ⟨hlen, hnd, hsome⟩ := h0
      obtain ⟨v, hv⟩ := Option.isSome_iff_exists.mp hsome
      simp only [parseCells, if_pos hlen, if_neg hnd, hv]
      exact ih (i + 1) _ b (fun j hj => by
        have h2 := h (j + 1) (Nat.succ_lt_succ hj)
        rwa [show i + (j + 1) = i + 1 + j by omega] at h2)

lemma parseLines_no_dash :
    ∀ (lines : List (List String)) (row : Nat) (tilesArr : List Int) (blank : Nat × Nat),
      row + lines.length ≤ PUZZLE_WIDTH →
      (∀ line ∈ lines, ∀ j, j < PUZZLE_WIDTH → j < line.length ∧ line.getD j "" ≠ "-" ∧
        (pyInt (line.getD j "")).isSome = true) →
      ∃ t, parseLines lines row tilesArr blank = .ok (t, blank) := by
  intro lines
  induction lines with
  | nil => exact fun row tA b _ _ => ⟨tA, rfl⟩
  | cons line rest ih =>
      intro row tA b hrow hl
      have hrowlt : row < PUZZLE_WIDTH := by
        simp only [List.length_cons] at hrow; omega
      obtain ⟨t1, ht1⟩ := parseCells_no_dash row line PUZZLE_WIDTH 0 tA b (fun j hj => by
        have := hl line (List.mem_cons_self line rest) j hj
        simpa using this)
      simp only [parseLines, if_pos hrowlt, ht1]
      refine ih (row + 1) t1 b ?_ (fun l hm => hl l (List.mem_cons_of_mem line hm))
      simp only [List.length_cons] at hrow; omega

/-- C10: on a 4-line input whose (consumed) tokens are all integer tokens
and contain no '-' placeholder, read_puzzle_string returns normally, with
blank_r = 0 and blank_c = 0 (the zero-initialised defaults): the parser
rejects only non-integer tokens and never checks that a blank was present. -/
theorem C10_parser_no_blank_check (lines : List (List String))
    (hlen : lines.length = PUZZLE_WIDTH)
    (htok : ∀ line ∈ lines, ∀ j, j < PUZZLE_WIDTH → j < line.length ∧
      line.getD j "" ≠ "-" ∧ (pyInt (line.getD j "")).isSome = true) :
    parsedBlank (read_puzzle_string lines) = some (0, 0) := by
  obtain ⟨t, ht⟩ :=
    parseLines_no_dash lines 0 (List.replicate (PUZZLE_WIDTH * PUZZLE_WIDTH) 0) (0, 0)
      (by omega) htok
  simp only [read_puzzle_string, ht]
  rfl

/-- Witness for C10: the all-integer input noDashLines parses successfully
with blank (0,0), and on the parsed state the cached-blank invariant is in
fact violated (cell (0,0) holds 1, not 0). -/
theorem C10_parser_no_blank_check_witness :
    parsedBlank (read_puzzle_string noDashLines) = some (0, 0) ∧
      (read_puzzle_string noDashLines).toOption.map invHolds = some false :=
  ⟨C10_parser_no_blank_check noDashLines (by decide) (by decide), by decide⟩

/-! ### Claim C8 (cached blank invariant) -/

/-- Counterexample to C8 as stated: the parsed initial state of the
blank-free integer input noDashLines is reachable at the public interface
and violates tiles[blank] == 0. -/
theorem C8_parsed_state_violates_invariant :
    (read_puzzle_string noDashLines).toOption.map invHolds = some false := by
  decide

lemma mem_ite_singleton {c x : NumberPuzzle} {cond : Prop} [Decidable cond]
    (h : c ∈ (if cond then [x] else [])) : cond ∧ c = x := by
  split at h
  · exact ⟨by assumption, by simpa using h⟩
  · simp at h

lemma of_mem_legal_moves {p c : NumberPuzzle} (hm : c ∈ legal_moves p) :
    (0 < p.blank_r ∧ c = p.copy.move (p.blank_r - 1) p.blank_c) ∨
    (0 < p.blank_c ∧ c = p.copy.move p.blank_r (p.blank_c - 1)) ∨
    (p.blank_r < PUZZLE_WIDTH - 1 ∧ c = p.copy.move (p.blank_r + 1) p.blank_c) ∨
    (p.blank_c < PUZZLE_WIDTH - 1 ∧ c = p.copy.move p.blank_r (p.blank_c + 1)) := by
  unfold legal_moves at hm
  simp only [List.mem_append] at hm
  rcases hm with ((h | h) | h) | h
  · exact Or.inl (mem_ite_singleton h)
  · exact Or.inr (Or.inl (mem_ite_singleton h))
  · exact Or.inr (Or.inr (Or.inl (mem_ite_singleton h)))
  · exact Or.inr (Or.inr (Or.inr (mem_ite_singleton h)))

lemma move_blank_zero (p : NumberPuzzle) (tr tc : Nat)
    (h : tr * PUZZLE_WIDTH + tc < p.tiles.length) :
    (p.copy.move tr tc).tiles.getD (p.copy.move tr tc).blankIdx 0 = 0 := by
  obtain ⟨t, r, c, par, d, k⟩ := p
  simp only [NumberPuzzle.copy, NumberPuzzle.move, NumberPuzzle.tiles, blankIdx,
    NumberPuzzle.blank_r, NumberPuzzle.blank_c] at *
  have hlen : tr * PUZZLE_WIDTH + tc <
      (t.set (r * PUZZLE_WIDTH + c) (t.getD (tr * PUZZLE_WIDTH + tc) 0)).length := by
    simpa using h
  rw [List.getD_eq_getElem?_getD, List.getElem?_set_eq_of_lt BLANK hlen]
  rfl

lemma parseCells_blank_inv (row : Nat) (tokens : List String) :
    ∀ (n i : Nat) (tilesArr : List Int) (blank : Nat × Nat) (t : List Int) (b : Nat × Nat),
      i + n = PUZZLE_WIDTH → row < PUZZLE_WIDTH → tilesArr.length = 16 →
      (Qinv tilesArr blank (row * PUZZLE_WIDTH + i) ∨
        ∃ j, j < n ∧ tokens.getD (i + j) "" = "-") →
      parseCells row tokens n i tilesArr blank = .ok (t, b) →
      t.length = 16 ∧ Qinv t b (row * PUZZLE_WIDTH + PUZZLE_WIDTH) := by
  intro n
  induction n with
  | zero =>
      intro i tA blank t b hi hrow hL hd heq
      simp only [parseCells] at heq
      obtain ⟨rfl, rfl⟩ : tA = t ∧ blank = b := by
        injection heq with h1; exact ⟨congrArg Prod.fst h1, congrArg Prod.snd h1⟩
      rcases hd with hq | ⟨j, hj, _⟩
      · rw [Nat.add_zero] at hi; rw [hi] at hq; exact ⟨hL, hq⟩
      · omega
  | succ n ih =>
      intro i tA blank t b hi hrow hL hd heq
      simp only [parseCells] at heq
      simp only [PUZZLE_WIDTH] at hi hrow heq
      have hile : i ≤ 3 := by omega
      by_cases hlen : i < tokens.length
      · rw [if_pos hlen] at heq
        by_cases hdash : tokens.getD i "" = "-"
        · rw [if_pos hdash] at heq
          have hidx : row * 4 + i < tA.length := by omega
          have hdisj : Qinv (tA.set (row * 4 + i) BLANK) (row, i)
              (row * PUZZLE_WIDTH + (i + 1)) ∨
              ∃ j, j < n ∧ tokens.getD (i + 1 + j) "" = "-" := by
            left
            simp only [Qinv, PUZZLE_WIDTH]
            refine ⟨?_, by omega⟩
            rw [List.getD_eq_getElem?_getD, List.getElem?_set_eq_of_lt BLANK hidx]
            rfl
          have hstep := ih (i + 1) _ (row, i) t b (by simp only [PUZZLE_WIDTH]; omega)
            (by simp only [PUZZLE_WIDTH]; omega) (by simpa using hL) hdisj heq
          exact hstep
        · rw [if_neg hdash] at heq
          cases hpi : pyInt (tokens.getD i "") with
          | none => rw [hpi] at heq; simp at heq
          | some v =>
              rw [hpi] at heq
              have hdisj : Qinv (tA.set (row * 4 + i) v) blank
                  (row * PUZZLE_WIDTH + (i + 1)) ∨
                  ∃ j, j < n ∧ tokens.getD (i + 1 + j) "" = "-" := by
                rcases hd with hq | ⟨j, hj, hdj⟩
                · left
                  have hq0 := hq.1
                  have hqb := hq.2
                  simp only [PUZZLE_WIDTH] at hq0 hqb
                  simp only [Qinv, PUZZLE_WIDTH]
                  have hne : row * 4 + i ≠ blank.1 * 4 + blank.2 := by omega
                  refine ⟨?_, by omega⟩
                  rw [List.getD_eq_getElem?_getD, List.getElem?_set_ne hne,
                    ← List.getD_eq_getElem?_getD]
                  exact hq0
                · right
                  cases j with
                  | zero => rw [Nat.add_zero] at hdj; exact absurd hdj hdash
                  | succ jj =>
                      exact ⟨jj, by omega, by
                        rwa [show i + 1 + jj = i + (jj + 1) by omega]⟩
              have hstep := ih (i + 1) _ blank t b (by simp only [PUZZLE_WIDTH]; omega)
                (by simp only [PUZZLE_WIDTH]; omega) (by simpa using hL) hdisj heq
              exact hstep
      · rw [if_neg hlen] at heq; simp at heq

lemma parseCells_length (row : Nat) (tokens : List String) :
    ∀ (n i : Nat) (tilesArr : List Int) (blank : Nat × Nat) (t : List Int) (b : Nat × Nat),
      parseCells row tokens n i tilesArr blank = .ok (t, b) → t.length = tilesArr.length := by
  intro n
  induction n with
  | zero =>
      intro i tA blank t b heq
      simp only [parseCells] at heq
      have h1 : tA = t := congrArg Prod.fst (by injection heq)
      rw [← h1]
  | succ n ih =>
      intro i tA blank t b heq
      simp only [parseCells] at heq
      by_cases hlen : i < tokens.length
      · rw [if_pos hlen] at heq
        by_cases hdash : tokens.getD i "" = "-"
        · rw [if_pos hdash] at heq
          have := ih (i + 1) _ (row, i) t b heq
          simpa using this
        · rw [if_neg hdash] at heq
          cases hpi : pyInt (tokens.getD i "") with
          | none => rw [hpi] at heq; simp at heq
          | some v =>
              rw [hpi] at heq
              have := ih (i + 1) _ blank t b heq
              simpa using this
      · rw [if_neg hlen] at heq; simp at heq

lemma parseLines_blank_inv :
    ∀ (lines : List (List String)) (row : Nat) (tilesArr : List Int) (blank : Nat × Nat)
      (t : List Int) (b : Nat × Nat),
      row ≤ PUZZLE_WIDTH → tilesArr.length = 16 →
      (Qinv tilesArr blank (row * PUZZLE_WIDTH) ∨
        ∃ i j, i < lines.length ∧ j < PUZZLE_WIDTH ∧ (lines.getD i []).getD j "" = "-") →
      parseLines lines row tilesArr blank = .ok (t, b) →
      t.length = 16 ∧ Qinv t b 16 := by
  intro lines
  induction lines with
  | nil =>
      intro row tA blank t b hrow hL hd heq
      simp only [parseLines] at heq
      obtain ⟨rfl, rfl⟩ : tA = t ∧ blank = b := by
        injection heq with h1; exact ⟨congrArg Prod.fst h1, congrArg Prod.snd h1⟩
      rcases hd with ⟨hq0, hqb⟩ | ⟨i, j, hi, _⟩
      · refine ⟨hL, hq0, ?_⟩
        simp only [PUZZLE_WIDTH] at hrow hqb ⊢
        omega
      · simp at hi
  | cons line rest ih =>
      intro row tA blank t b hrow hL hd heq
      simp only [parseLines] at heq
      by_cases hrlt : row < PUZZLE_WIDTH
      · rw [if_pos hrlt] at heq
        cases hpc : parseCells row line PUZZLE_WIDTH 0 tA blank with
        | error e => rw [hpc] at heq; simp at heq
        | ok tb =>
            rw [hpc] at heq
            obtain ⟨t1, b1⟩ := tb
            rcases hd with hq | ⟨i, j, hi, hj, hdj⟩
            · have hs := parseCells_blank_inv row line PUZZLE_WIDTH 0 tA blank t1 b1
                (by omega) hrlt hL (Or.inl (by simpa using hq)) hpc
              refine ih (row + 1) t1 b1 t b (by omega) hs.1 (Or.inl ?_) heq
              rw [show (row + 1) * PUZZLE_WIDTH = row * PUZZLE_WIDTH + PUZZLE_WIDTH by ring]
              exact hs.2
            · cases i with
              | zero =>
                  have hs := parseCells_blank_inv row line PUZZLE_WIDTH 0 tA blank t1 b1
                    (by omega) hrlt hL (Or.inr ⟨j, hj, by simpa using hdj⟩) hpc
                  refine ih (row + 1) t1 b1 t b (by omega) hs.1 (Or.inl ?_) heq
                  rw [show (row + 1) * PUZZLE_WIDTH = row * PUZZLE_WIDTH + PUZZLE_WIDTH by ring]
                  exact hs.2
              | succ ii =>
                  have hlen1 : t1.length = 16 := by
                    rw [parseCells_length row line PUZZLE_WIDTH 0 tA blank t1 b1 hpc]
                    exact hL
                  refine ih (row + 1) t1 b1 t b (by omega) hlen1
                    (Or.inr ⟨ii, j, ?_, hj, ?_⟩) heq
                  · simp only [List.length_cons] at hi; omega
                  · simpa using hdj
      · rw [if_neg hrlt] at heq; simp at heq

/-- C8 amended: every child produced by legal_moves from a well-formed
4x4 state has its cached blank position holding 0; and the parsed initial
state satisfies the invariant whenever at least one consumed token of the
input is the '-' placeholder.  (As literally stated the claim fails: C10
shows a blank-free integer input parses into a state that violates the
invariant, see the counterexample theorem.) -/
theorem C8_amended_blank_invariant :
    (∀ p c : NumberPuzzle, p.tiles.length = 16 → p.blank_r < 4 → p.blank_c < 4 →
        c ∈ legal_moves p → c.tiles.getD c.blankIdx 0 = 0) ∧
    (∀ (lines : List (List String)) (p : NumberPuzzle),
        (∃ i j, i < lines.length ∧ j < PUZZLE_WIDTH ∧ (lines.getD i []).getD j "" = "-") →
        read_puzzle_string lines = .ok p → p.tiles.getD p.blankIdx 0 = 0) := by
  constructor
  · intro p c hL hr hc hm
    rcases of_mem_legal_moves hm with ⟨hg, rfl⟩ | ⟨hg, rfl⟩ | ⟨hg, rfl⟩ | ⟨hg, rfl⟩ <;>
      refine move_blank_zero p _ _ ?_ <;> simp only [PUZZLE_WIDTH] at * <;> omega
  · intro lines p hdash hok
    unfold read_puzzle_string at hok
    cases hpl : parseLines lines 0 (List.replicate (PUZZLE_WIDTH * PUZZLE_WIDTH) 0) (0, 0) with
    | error e => rw [hpl] at hok; simp at hok
    | ok tb =>
        rw [hpl] at hok
        obtain ⟨t, r, c⟩ := tb
        have hp : p = .mk t r c none 0 0 := by
          injection hok with h1; exact h1.symm
        subst hp
        have hinv := parseLines_blank_inv lines 0
          (List.replicate (PUZZLE_WIDTH * PUZZLE_WIDTH) 0) (0, 0) t (r, c)
          (by omega) (by simp [PUZZLE_WIDTH]) (Or.inr hdash) hpl
        exact hinv.2.1

/-- Witness for C8: a child of the well-formed state stateP15 satisfies the
invariant, and the solved-input parse (which contains a '-') satisfies it. -/
theorem C8_amended_blank_invariant_witness :
    ((stateP15.copy.move 3 3).tiles.getD (stateP15.copy.move 3 3).blankIdx 0 = 0) ∧
      ((NumberPuzzle.mk [1, 2, 3, 4, 5, 6, 7, 8, 9, 10, 11, 12, 13, 14, 15, 0] 3 3
          none 0 0).tiles.getD
        (NumberPuzzle.mk [1, 2, 3, 4, 5, 6, 7, 8, 9, 10, 11, 12, 13, 14, 15, 0] 3 3
          none 0 0).blankIdx 0 = 0) :=
  ⟨C8_amended_blank_invariant.1 stateP15 (stateP15.copy.move 3 3) (by decide) (by decide)
      (by decide) (by
        have h : legal_moves stateP15 =
            [stateP15.copy.move 2 2, stateP15.copy.move 3 1, stateP15.copy.move 3 3] := rfl
        rw [h]
        exact List.mem_cons_of_mem _ (List.mem_cons_of_mem _ (List.mem_cons_self _ _))),
    C8_amended_blank_invariant.2
      [["1", "2", "3", "4"], ["5", "6", "7", "8"],
       ["9", "10", "11", "12"], ["13", "14", "15", "-"]]
      (NumberPuzzle.mk [1, 2, 3, 4, 5, 6, 7, 8, 9, 10, 11, 12, 13, 14, 15, 0] 3 3 none 0 0)
      ⟨3, 3, by decide, by decide, by decide⟩ rfl⟩

/-! ### Claim C9 (legal_moves never mutates self) -/

lemma getD_append_length {α : Type} (l : List α) (x d : α) : (l ++ [x]).getD l.length d = x := by
  rw [List.getD_eq_getElem?_getD, List.getElem?_concat_length]; rfl

lemma getD_set_append_frame {α : Type} (l : List α) (x y : α) (d : α) (i : Nat)
    (h : i < l.length) : ((l ++ [x]).set l.length y).getD i d = l.getD i d := by
  rw [List.getD_eq_getElem?_getD, List.getElem?_set_ne (by omega),
    ← List.getD_eq_getElem?_getD, List.getD_append _ _ _ _ h]

lemma copyMove_frame (orig : Mem) (sid aref : Nat)
    (hs : sid < orig.objs.length) (ha : aref < orig.arrs.length)
    (m : Mem) (hf : FrameAt orig sid aref m) (tr tc : Nat) :
    FrameAt orig sid aref (moveM (copyM m sid).1 (copyM m sid).2 tr tc) := by
  obtain ⟨h1, h2, h3, h4⟩ := hf
  have hso : sid < m.objs.length := lt_of_lt_of_le hs h3
  have hao : aref < m.arrs.length := lt_of_lt_of_le ha h4
  simp only [copyM, moveM, getD_append_length]
  refine ⟨?_, ?_, ?_, ?_⟩
  · rw [getD_set_append_frame _ _ _ _ _ hso]; exact h1
  · rw [getD_set_append_frame _ _ _ _ _ hao]; exact h2
  · simp only [List.length_set, List.length_append, List.length_singleton]; omega
  · simp only [List.length_set, List.length_append, List.length_singleton]; omega

lemma ifstep_frame (orig : Mem) (sid aref : Nat)
    (hs : sid < orig.objs.length) (ha : aref < orig.arrs.length)
    (st : Mem × List Nat) (cond : Prop) [Decidable cond] (tr tc : Nat) (acc : List Nat)
    (hf : FrameAt orig sid aref st.1) :
    FrameAt orig sid aref
      (if cond then (moveM (copyM st.1 sid).1 (copyM st.1 sid).2 tr tc, acc) else st).1 := by
  split
  · exact copyMove_frame orig sid aref hs ha st.1 hf tr tc
  · exact hf

/-- C9: running legal_moves on a state leaves that state completely
unchanged in the reference-semantics model: its object record (blank_r,
blank_c, parent, dist_from_start, key, tiles reference) and its tiles
array are the same after the call; only freshly allocated children and
their fresh array copies are written. -/
theorem C9_legal_moves_frame (m : Mem) (sid : Nat)
    (hs : sid < m.objs.length)
    (ha : (m.objs.getD sid objDflt).tiles_ref < m.arrs.length) :
    (legal_movesM m sid).1.objs.getD sid objDflt = m.objs.getD sid objDflt ∧
    (legal_movesM m sid).1.arrs.getD (m.objs.getD sid objDflt).tiles_ref [] =
      m.arrs.getD (m.objs.getD sid objDflt).tiles_ref [] := by
  have hf : FrameAt m sid ((m.objs.getD sid objDflt).tiles_ref) (legal_movesM m sid).1 := by
    simp only [legal_movesM]
    apply ifstep_frame m sid _ hs ha
    apply ifstep_frame m sid _ hs ha
    apply ifstep_frame m sid _ hs ha
    apply ifstep_frame m sid _ hs ha
    exact ⟨rfl, rfl, Nat.le_refl _, Nat.le_refl _⟩
  exact ⟨hf.1, hf.2.1⟩

/-- Witness for C9 on a concrete one-object store. -/
theorem C9_legal_moves_frame_witness :
    (legal_movesM ⟨[[1, 2, 3, 4, 5, 6, 7, 8, 9, 10, 11, 12, 13, 14, 0, 15]],
        [⟨0, 3, 2, none, 0, 0⟩]⟩ 0).1.objs.getD 0 objDflt =
      (Mem.mk [[1, 2, 3, 4, 5, 6, 7, 8, 9, 10, 11, 12, 13, 14, 0, 15]]
        [⟨0, 3, 2, none, 0, 0⟩]).objs.getD 0 objDflt ∧
    (legal_movesM ⟨[[1, 2, 3, 4, 5, 6, 7, 8, 9, 10, 11, 12, 13, 14, 0, 15]],
        [⟨0, 3, 2, none, 0, 0⟩]⟩ 0).1.arrs.getD
        ((Mem.mk [[1, 2, 3, 4, 5, 6, 7, 8, 9, 10, 11, 12, 13, 14, 0, 15]]
          [⟨0, 3, 2, none, 0, 0⟩]).objs.getD 0 objDflt).tiles_ref [] =
      (Mem.mk [[1, 2, 3, 4, 5, 6, 7, 8, 9, 10, 11, 12, 13, 14, 0, 15]]
        [⟨0, 3, 2, none, 0, 0⟩]).arrs.getD
        ((Mem.mk [[1, 2, 3, 4, 5, 6, 7, 8, 9, 10, 11, 12, 13, 14, 0, 15]]
          [⟨0, 3, 2, none, 0, 0⟩]).objs.getD 0 objDflt).tiles_ref [] :=
  C9_legal_moves_frame
    ⟨[[1, 2, 3, 4, 5, 6, 7, 8, 9, 10, 11, 12, 13, 14, 0, 15]], [⟨0, 3, 2, none, 0, 0⟩]⟩ 0
    (by decide) (by decide)

/-! ### Heap lemmas: push and pop permute the queue contents -/

lemma set_self_getD {α : Type} (d : α) (l : List α) (i : Nat) (h : i < l.length) :
    l.set i (l.getD i d) = l := by
  rw [List.getD_eq_getElem l d h]
  apply List.ext_getElem?
  intro j
  by_cases hij : i = j
  · subst hij; rw [List.getElem?_set_eq_of_lt _ h, List.getElem?_eq_getElem h]
  · rw [List.getElem?_set_ne hij]

lemma cons_set_perm {α : Type} (d : α) :
    ∀ (t : List α) (j : Nat) (a : α), j < t.length →
      List.Perm (t.getD j d :: t.set j a) (a :: t) := by
  intro t
  induction t with
  | nil => intro j a h; simp at h
  | cons b s ih =>
      intro j a h
      cases j with
      | zero =>
          simp only [List.getD_cons_zero, List.set_cons_zero]
          exact List.Perm.swap a b s
      | succ j =>
          simp only [List.getD_cons_succ, List.set_cons_succ]
          have h1 : List.Perm (s.getD j d :: b :: s.set j a) (b :: s.getD j d :: s.set j a) :=
            List.Perm.swap b (s.getD j d) (s.set j a)
          have h2 := (ih j a (by simpa using h)).cons b
          exact h1.trans (h2.trans (List.Perm.swap a b s))

lemma set_set_perm_getD {α : Type} (d : α) :
    ∀ (l : List α) (i j : Nat), i < l.length → j < l.length →
      List.Perm ((l.set i (l.getD j d)).set j (l.getD i d)) l := by
  intro l
  induction l with
  | nil => intro i j h _; simp at h
  | cons a t ih =>
      intro i j hi hj
      cases i with
      | zero =>
          cases j with
          | zero =>
              simp only [List.getD_cons_zero, List.set_cons_zero]
              exact List.Perm.refl _
          | succ j =>
              simp only [List.getD_cons_zero, List.getD_cons_succ, List.set_cons_zero,
                List.set_cons_succ]
              exact cons_set_perm d t j a (by simpa using hj)
      | succ i =>
          cases j with
          | zero =>
              simp only [List.getD_cons_zero, List.getD_cons_succ, List.set_cons_zero,
                List.set_cons_succ]
              exact cons_set_perm d t i a (by simpa using hi)
          | succ j =>
              simp only [List.getD_cons_succ, List.set_cons_succ]
              exact (ih i j (by simpa using hi) (by simpa using hj)).cons a

lemma siftdownAux_perm :
    ∀ (fuel : Nat) (heap : List NumberPuzzle) (startpos pos : Nat),
      pos < heap.length → List.Perm (siftdownAux fuel heap startpos pos) heap := by
  intro fuel
  induction fuel with
  | zero => intro heap s pos _; exact List.Perm.refl _
  | succ fuel ih =>
      intro heap s pos hpos
      simp only [siftdownAux]
      by_cases hlt : s < pos
      · rw [if_pos hlt]
        by_cases hcmp : pLt (heap.getD pos dummy) (heap.getD ((pos - 1) / 2) dummy) = true
        · rw [if_pos hcmp]
          have hpp : (pos - 1) / 2 < heap.length := by omega
          have hswap := set_set_perm_getD dummy heap pos ((pos - 1) / 2) hpos hpp
          refine (ih _ s _ ?_).trans hswap
          simpa using hpp
        · rw [if_neg hcmp]
      · rw [if_neg hlt]

lemma siftupAux_perm :
    ∀ (fuel : Nat) (heap : List NumberPuzzle) (startpos pos : Nat),
      pos < heap.length → List.Perm (siftupAux fuel heap startpos pos) heap := by
  intro fuel
  induction fuel with
  | zero =>
      intro heap s pos h
      simp only [siftupAux, siftdown]
      exact siftdownAux_perm pos heap s pos h
  | succ fuel ih =>
      intro heap s pos hpos
      simp only [siftupAux]
      by_cases hc : 2 * pos + 1 < heap.length
      · rw [if_pos hc]
        by_cases hr : 2 * pos + 1 + 1 < heap.length ∧
            ¬ pLt (heap.getD (2 * pos + 1) dummy) (heap.getD (2 * pos + 1 + 1) dummy) = true
        · rw [if_pos hr]
          have hswap := set_set_perm_getD dummy heap pos (2 * pos + 1 + 1) hpos hr.1
          refine (ih _ s _ ?_).trans hswap
          simpa using hr.1
        · rw [if_neg hr]
          have hswap := set_set_perm_getD dummy heap pos (2 * pos + 1) hpos hc
          refine (ih _ s _ ?_).trans hswap
          simpa using hc
      · rw [if_neg hc]
        simp only [siftdown]
        exact siftdownAux_perm pos heap s pos hpos

lemma heappushq_perm (heap : List NumberPuzzle) (x : NumberPuzzle) :
    List.Perm (heappushq heap x) (x :: heap) := by
  unfold heappushq siftdown
  have h : heap.length < (heap ++ [x]).length := by simp
  exact (siftdownAux_perm _ _ _ _ h).trans (List.perm_append_singleton x heap)

lemma getLastD_cons_dropLast_perm {α : Type} (d : α) (l : List α) (h : l ≠ []) :
    List.Perm (l.getLastD d :: l.dropLast) l := by
  have h1 : l.getLastD d = l.getLast h := by
    rw [List.getLastD_eq_getLast? .., List.getLast?_eq_getLast l h]; rfl
  rw [h1]
  conv_rhs => rw [← List.dropLast_append_getLast h]
  exact (List.perm_append_singleton _ _).symm

lemma heappopq_perm :
    ∀ (heap : List NumberPuzzle) (r : NumberPuzzle) (t : List NumberPuzzle),
      heappopq heap = some (r, t) → List.Perm (r :: t) heap := by
  intro heap r t heq
  cases heap with
  | nil => simp [heappopq] at heq
  | cons x xs =>
      cases xs with
      | nil =>
          simp only [heappopq, Option.some.injEq, Prod.mk.injEq] at heq
          obtain ⟨rfl, rfl⟩ := heq
          exact List.Perm.refl _
      | cons y rest =>
          simp only [heappopq, Option.some.injEq, Prod.mk.injEq] at heq
          obtain ⟨rfl, rfl⟩ := heq
          apply List.Perm.cons
          have hS : (x :: y :: rest).dropLast.set 0 ((x :: y :: rest).getLastD dummy) =
              ((x :: y :: rest).getLastD dummy) :: (y :: rest).dropLast := by
            rw [List.dropLast_cons₂, List.set_cons_zero]
          rw [siftup, hS]
          have hlast : (x :: y :: rest).getLastD dummy = (y :: rest).getLastD dummy := by
            rw [List.getLastD_eq_getLast? .., List.getLastD_eq_getLast? ..,
              List.getLast?_cons_cons]
          refine (siftupAux_perm _ _ _ _ (by simp)).trans ?_
          rw [hlast]
          exact getLastD_cons_dropLast_perm dummy (y :: rest) (by simp)

lemma mem_heappushq {heap : List NumberPuzzle} {x q : NumberPuzzle}
    (h : q ∈ heappushq heap x) : q = x ∨ q ∈ heap := by
  have := (heappushq_perm heap x).mem_iff.mp h
  simpa using this

/-! ### Properties of the generated children -/

lemma copy_move_fields (p : NumberPuzzle) (tr tc : Nat) :
    (p.copy.move tr tc).tiles =
      (p.tiles.set p.blankIdx (p.tiles.getD (tr * PUZZLE_WIDTH + tc) 0)).set
        (tr * PUZZLE_WIDTH + tc) BLANK ∧
    (p.copy.move tr tc).blank_r = tr ∧ (p.copy.move tr tc).blank_c = tc ∧
    (p.copy.move tr tc).parent = some p ∧
    (p.copy.move tr tc).dist_from_start = p.dist_from_start + 1 := by
  obtain ⟨t, r, c, par, d, k⟩ := p
  simp [NumberPuzzle.copy, NumberPuzzle.move, NumberPuzzle.tiles, NumberPuzzle.blank_r,
    NumberPuzzle.blank_c, NumberPuzzle.parent, NumberPuzzle.dist_from_start, blankIdx]

lemma copy_move_good (p : NumberPuzzle) (tr tc : Nat) (hw : WF p)
    (htr : tr < 4) (htc : tc < 4)
    (hadj : (tr = p.blank_r ∧ (tc = p.blank_c + 1 ∨ tc + 1 = p.blank_c)) ∨
            (tc = p.blank_c ∧ (tr = p.blank_r + 1 ∨ tr + 1 = p.blank_r))) :
    WF (p.copy.move tr tc) ∧ List.Perm (p.copy.move tr tc).tiles p.tiles ∧
      (p.copy.move tr tc).parent = some p ∧
      (p.copy.move tr tc).dist_from_start = p.dist_from_start + 1 ∧
      AdjSwap p (p.copy.move tr tc) := by
  obtain ⟨hL, hr, hc, hinv⟩ := hw
  have htIdx : tr * PUZZLE_WIDTH + tc < p.tiles.length := by
    rw [hL]; simp only [PUZZLE_WIDTH]; omega
  have hbIdx : p.blankIdx < p.tiles.length := by
    rw [hL]; simp only [blankIdx, PUZZLE_WIDTH]; omega
  have hBeq : BLANK = p.tiles.getD p.blankIdx 0 := by
    simp only [BLANK]; exact hinv.symm
  obtain ⟨ht, hbr, hbc, hpar, hdist⟩ := copy_move_fields p tr tc
  refine ⟨⟨?_, ?_, ?_, ?_⟩, ?_, hpar, hdist, ?_⟩
  · rw [ht]; simpa using hL
  · rw [hbr]; exact htr
  · rw [hbc]; exact htc
  · exact move_blank_zero p tr tc htIdx
  · rw [ht, hBeq]
    exact set_set_perm_getD 0 p.tiles p.blankIdx (tr * PUZZLE_WIDTH + tc) hbIdx htIdx
  · refine ⟨tr, tc, htr, htc, hadj, hbr, hbc, ?_⟩
    rw [ht]
    exact congrArg _ hBeq

lemma legal_moves_WF {p c : NumberPuzzle} (hw : WF p) (hm : c ∈ legal_moves p) :
    WF c ∧ List.Perm c.tiles p.tiles ∧ c.parent = some p ∧
      c.dist_from_start = p.dist_from_start + 1 ∧ AdjSwap p c := by
  rcases of_mem_legal_moves hm with ⟨hg, rfl⟩ | ⟨hg, rfl⟩ | ⟨hg, rfl⟩ | ⟨hg, rfl⟩
  · exact copy_move_good p _ _ hw (by omega) hw.2.2.1
      (Or.inr ⟨rfl, Or.inr (by omega)⟩)
  · exact copy_move_good p _ _ hw hw.2.1 (by omega)
      (Or.inl ⟨rfl, Or.inr (by omega)⟩)
  · have hg3 : p.blank_r < 3 := by simpa [PUZZLE_WIDTH] using hg
    exact copy_move_good p _ _ hw (by omega) hw.2.2.1 (Or.inr ⟨rfl, Or.inl rfl⟩)
  · have hg3 : p.blank_c < 3 := by simpa [PUZZLE_WIDTH] using hg
    exact copy_move_good p _ _ hw hw.2.1 (by omega) (Or.inl ⟨rfl, Or.inl rfl⟩)

lemma prepChild_fields (bh : Bool) (p n : NumberPuzzle) :
    (prepChild bh p n).tiles = n.tiles ∧ (prepChild bh p n).blank_r = n.blank_r ∧
    (prepChild bh p n).blank_c = n.blank_c ∧ (prepChild bh p n).parent = some p ∧
    (prepChild bh p n).dist_from_start = n.dist_from_start := by
  obtain ⟨t, r, c, par, d, k⟩ := n
  simp [prepChild, NumberPuzzle.set_key, NumberPuzzle.set_parent, NumberPuzzle.tiles,
    NumberPuzzle.blank_r, NumberPuzzle.blank_c, NumberPuzzle.parent,
    NumberPuzzle.dist_from_start]

lemma searchNode_props {bh : Bool} {start q : NumberPuzzle} (hw : WF start)
    (h : SearchNode bh start q) : WF q ∧ List.Perm q.tiles start.tiles := by
  induction h with
  | base => exact ⟨hw, List.Perm.refl _⟩
  | step hsn hm ih =>
      obtain ⟨hwp, hperm⟩ := ih
      obtain ⟨hwn, hpermn, _, _, _⟩ := legal_moves_WF hwp hm
      obtain ⟨ht, hbr, hbc, hpar, hd⟩ := prepChild_fields ..
      refine ⟨⟨?_, ?_, ?_, ?_⟩, ?_⟩
      · rw [ht]; exact hwn.1
      · rw [hbr]; exact hwn.2.1
      · rw [hbc]; exact hwn.2.2.1
      · simp only [blankIdx, hbr, hbc, ht]
        exact hwn.2.2.2
      · rw [ht]; exact hpermn.trans hperm

/-! ### Path reconstruction facts -/

lemma path_to_here_parent_none {p : NumberPuzzle} (h : p.parent = none) :
    path_to_here p = [p] := by
  obtain ⟨t, r, c, par, d, k⟩ := p
  simp only [NumberPuzzle.parent] at h
  subst h
  rfl

lemma path_to_here_parent_some {p q : NumberPuzzle} (h : p.parent = some q) :
    path_to_here p = path_to_here q ++ [p] := by
  obtain ⟨t, r, c, par, d, k⟩ := p
  simp only [NumberPuzzle.parent] at h
  subst h
  rfl

lemma path_to_here_getLast (p : NumberPuzzle) : (path_to_here p).getLast? = some p := by
  obtain ⟨t, r, c, par, d, k⟩ := p
  cases par with
  | none => rfl
  | some q => simp [path_to_here, List.getLast?_concat]

lemma searchNode_chain {bh : Bool} {start q : NumberPuzzle} (hw : WF start)
    (hp : start.parent = none) (h : SearchNode bh start q) :
    List.Chain' StepRel (path_to_here q) := by
  induction h with
  | base => rw [path_to_here_parent_none hp]; exact List.chain'_singleton _
  | step hsn hm ih =>
      rename_i p n
      have hparent : (prepChild bh p n).parent = some p := (prepChild_fields bh p n).2.2.2.1
      rw [path_to_here_parent_some hparent]
      apply List.Chain'.append ih (List.chain'_singleton _)
      intro x hx y hy
      rw [path_to_here_getLast p] at hx
      simp only [Option.mem_def, Option.some.injEq, List.head?_cons] at hx hy
      subst hx
      subst hy
      have hwp := (searchNode_props hw hsn).1
      obtain ⟨hwn, _, _, hdist, hadj⟩ := legal_moves_WF hwp hm
      obtain ⟨ht, hbr, hbc, hpar, hd⟩ := prepChild_fields bh p n
      constructor
      · obtain ⟨tr, tc, h1, h2, h3, h4, h5, h6⟩ := hadj
        exact ⟨tr, tc, h1, h2, h3, by rw [hbr]; exact h4, by rw [hbc]; exact h5,
          by rw [ht]; exact h6⟩
      · rw [hd, hdist]

/-! ### The search loop: invariants, claim C6, claim C5 -/

lemma heappushq_length (q : List NumberPuzzle) (x : NumberPuzzle) :
    (heappushq q x).length = q.length + 1 := by
  have := (heappushq_perm q x).length_eq
  simpa using this

lemma heappopq_ne_none (a : NumberPuzzle) (as : List NumberPuzzle) :
    heappopq (a :: as) ≠ none := by
  cases as <;> simp [heappopq]

lemma foldl_heappushq_mem (f : NumberPuzzle → NumberPuzzle) :
    ∀ (nodes : List NumberPuzzle) (q : List NumberPuzzle) (x : NumberPuzzle),
      x ∈ nodes.foldl (fun acc n => heappushq acc (f n)) q →
      x ∈ q ∨ ∃ n ∈ nodes, x = f n := by
  intro nodes
  induction nodes with
  | nil => intro q x h; exact Or.inl h
  | cons n ns ih =>
      intro q x h
      rcases ih _ x h with h1 | ⟨m, hm, rfl⟩
      · rcases mem_heappushq h1 with rfl | h2
        · exact Or.inr ⟨n, List.mem_cons_self n ns, rfl⟩
        · exact Or.inl h2
      · exact Or.inr ⟨m, List.mem_cons_of_mem _ hm, rfl⟩

lemma foldl_heappushq_length (f : NumberPuzzle → NumberPuzzle) :
    ∀ (nodes : List NumberPuzzle) (q : List NumberPuzzle),
      (nodes.foldl (fun acc n => heappushq acc (f n)) q).length = q.length + nodes.length := by
  intro nodes
  induction nodes with
  | nil => intro q; rfl
  | cons n ns ih =>
      intro q
      rw [List.foldl_cons, ih, heappushq_length, List.length_cons]
      omega

lemma legal_moves_length_le (p : NumberPuzzle) : (legal_moves p).length ≤ 4 := by
  unfold legal_moves
  split_ifs <;> simp

lemma solveLoop_success_form {bh : Bool} {start : NumberPuzzle} :
    ∀ (fuel : Nat) (queue : List NumberPuzzle) (closed : List (List Int)) (explored : Nat)
      (path : List NumberPuzzle) (e : Nat),
      (∀ q ∈ queue, SearchNode bh start q) →
      solveLoop bh fuel queue closed explored = some (some path, e) →
      ∃ s, SearchNode bh start s ∧ solved s = true ∧ path = path_to_here s := by
  intro fuel
  induction fuel with
  | zero => intro queue closed explored path e _ h; simp [solveLoop] at h
  | succ fuel ih =>
      intro queue closed explored path e hq h
      cases queue with
      | nil => simp [solveLoop] at h
      | cons a as =>
          simp only [solveLoop] at h
          rw [if_pos (by simp : (a :: as).length ≠ 0)] at h
          cases hpop : heappopq (a :: as) with
          | none => rw [hpop] at h; simp at h
          | some pr =>
              obtain ⟨state, rest⟩ := pr
              rw [hpop] at h
              dsimp only at h
              have hperm := heappopq_perm _ _ _ hpop
              have hstate : SearchNode bh start state :=
                hq state (hperm.subset (List.mem_cons_self state rest))
              have hrest : ∀ x ∈ rest, SearchNode bh start x := fun x hx =>
                hq x (hperm.subset (List.mem_cons_of_mem _ hx))
              by_cases hsolved : solved state = true
              · rw [if_pos hsolved] at h
                simp only [Option.some.injEq, Prod.mk.injEq] at h
                exact ⟨state, hstate, hsolved, h.1.symm⟩
              · rw [if_neg hsolved] at h
                by_cases hmem : state.tiles ∈ closed
                · rw [if_pos hmem] at h
                  exact ih rest closed _ path e hrest h
                · rw [if_neg hmem] at h
                  refine ih _ _ _ path e ?_ h
                  intro x hx
                  rcases foldl_heappushq_mem _ _ _ x hx with hx1 | ⟨n, hn, rfl⟩
                  · exact hrest x hx1
                  · exact SearchNode.step hstate hn

/-- C6: on any successful run of solve from a well-formed start state with
no predecessor, every consecutive pair of states in the returned path is
one swap of the blank with a grid-adjacent cell, and dist_from_start grows
by exactly 1 at each step. -/
theorem C6_path_step_validity (bh : Bool) (start : NumberPuzzle) (fuel : Nat)
    (path : List NumberPuzzle) (e : Nat) (hw : WF start) (hp : start.parent = none)
    (hrun : solve start bh fuel = some (some path, e)) :
    List.Chain' StepRel path := by
  unfold solve at hrun
  have hq : ∀ q ∈ heappushq [] start, SearchNode bh start q := by
    intro q hqm
    have he : heappushq [] start = [start] := rfl
    rw [he] at hqm
    simp only [List.mem_singleton] at hqm
    subst hqm
    exact SearchNode.base
  obtain ⟨s, hsn, _, rfl⟩ := solveLoop_success_form fuel _ [] 0 path e hq hrun
  exact searchNode_chain hw hp hsn

/-- Witness for C6 on the one-move state stateP15 with the Manhattan
heuristic. -/
theorem C6_path_step_validity_witness :
    List.Chain' StepRel (getPath (solve stateP15 true 8)) :=
  C6_path_step_validity true stateP15 8 (getPath (solve stateP15 true 8))
    (getExplored (solve stateP15 true 8)) (by decide) rfl rfl

lemma closed_length_le {L : List Int} {closed : List (List Int)} (hnd : closed.Nodup)
    (hsub : ∀ t ∈ closed, List.Perm t L) :
    closed.length ≤ L.permutations.toFinset.card := by
  have hsubset : closed.toFinset ⊆ L.permutations.toFinset := by
    intro x hx
    rw [List.mem_toFinset] at hx ⊢
    exact List.mem_permutations.mpr (hsub x hx)
  calc closed.length = closed.toFinset.card := (List.toFinset_card_of_nodup hnd).symm
    _ ≤ _ := Finset.card_le_card hsubset

lemma solveLoop_terminates (bh : Bool) {start : NumberPuzzle} (hw : WF start) :
    ∀ (fuel : Nat) (queue : List NumberPuzzle) (closed : List (List Int)) (explored : Nat),
      (∀ q ∈ queue, SearchNode bh start q) →
      closed.Nodup → (∀ t ∈ closed, List.Perm t start.tiles) →
      5 * (start.tiles.permutations.toFinset.card - closed.length) + queue.length + 1 ≤ fuel →
      (solveLoop bh fuel queue closed explored).isSome = true := by
  intro fuel
  induction fuel with
  | zero => intro queue closed explored _ _ _ hb; omega
  | succ fuel ih =>
      intro queue closed explored hq hnd hsub hb
      cases queue with
      | nil => simp [solveLoop]
      | cons a as =>
          simp only [solveLoop]
          rw [if_pos (by simp : (a :: as).length ≠ 0)]
          cases hpop : heappopq (a :: as) with
          | none => exact absurd hpop (heappopq_ne_none a as)
          | some pr =>
              obtain ⟨state, rest⟩ := pr
              dsimp only
              have hperm := heappopq_perm _ _ _ hpop
              have hlrest : rest.length = as.length := by
                have := hperm.length_eq
                simp only [List.length_cons] at this
                omega
              have hstate : SearchNode bh start state :=
                hq state (hperm.subset (List.mem_cons_self state rest))
              have hrest : ∀ x ∈ rest, SearchNode bh start x := fun x hx =>
                hq x (hperm.subset (List.mem_cons_of_mem _ hx))
              by_cases hsolved : solved state = true
              · rw [if_pos hsolved]; rfl
              · rw [if_neg hsolved]
                by_cases hmem : state.tiles ∈ closed
                · rw [if_pos hmem]
                  refine ih rest closed _ hrest hnd hsub ?_
                  simp only [List.length_cons] at hb
                  omega
                · rw [if_neg hmem]
                  have hndnew : (state.tiles :: closed).Nodup :=
                    List.nodup_cons.mpr ⟨hmem, hnd⟩
                  have hsubnew : ∀ t ∈ state.tiles :: closed, List.Perm t start.tiles := by
                    intro t ht
                    rcases List.mem_cons.mp ht with rfl | ht2
                    · exact (searchNode_props hw hstate).2
                    · exact hsub t ht2
                  have hcard : (state.tiles :: closed).length ≤
                      start.tiles.permutations.toFinset.card :=
                    closed_length_le hndnew hsubnew
                  refine ih _ _ _ ?_ hndnew hsubnew ?_
                  · intro x hx
                    rcases foldl_heappushq_mem _ _ _ x hx with hx1 | ⟨n, hn, rfl⟩
                    · exact hrest x hx1
                    · exact SearchNode.step hstate hn
                  · rw [foldl_heappushq_length]
                    have hll := legal_moves_length_le state
                    simp only [List.length_cons] at hb hcard ⊢
                    omega

/-- C5: for every well-formed 4x4 start configuration (solvable or not) and
either heuristic, the search loop terminates: some finite fuel makes solve
return a result rather than run out; and whenever the frontier empties
without a goal having been found, the loop returns the no-path signal
(none) together with the final explored count. -/
theorem C5_search_terminates (bh : Bool) (start : NumberPuzzle) (hw : WF start) :
    (∃ fuel r, solve start bh fuel = some r) ∧
    (∀ (fuel : Nat) (closed : List (List Int)) (explored : Nat),
      solveLoop bh (fuel + 1) [] closed explored = some (none, explored)) := by
  constructor
  · refine ⟨5 * start.tiles.permutations.toFinset.card + 2, ?_⟩
    have hism := solveLoop_terminates bh hw (5 * start.tiles.permutations.toFinset.card + 2)
      (heappushq [] start) [] 0
      (fun q hqm => by
        have he : heappushq [] start = [start] := rfl
        rw [he] at hqm
        simp only [List.mem_singleton] at hqm
        subst hqm
        exact SearchNode.base)
      List.nodup_nil (by simp) (by
        have he : (heappushq [] start).length = 1 := rfl
        rw [he]
        simp only [List.length_nil, Nat.sub_zero]
        omega)
    unfold solve
    exact Option.isSome_iff_exists.mp hism
  · intro fuel closed explored
    rfl

/-- Witness for C5 at the solved start state with the Manhattan heuristic. -/
theorem C5_search_terminates_witness :
    (∃ fuel r, solve solvedState true fuel = some r) ∧
    (∀ (fuel : Nat) (closed : List (List Int)) (explored : Nat),
      solveLoop true (fuel + 1) [] closed explored = some (none, explored)) :=
  C5_search_terminates true solvedState (by decide)

end FifteenPuzzle
